import Mathlib

/-!
Verification development for the abn_db_genie streaming response renderer.

The JavaScript sources under `static/js/` are shallowly embedded as pure Lean
functions.  External library calls (`marked.parse`, `DOMPurify.sanitize`,
`hljs`, the mermaid capability, the clipboard) are taken as oracle
parameters; everything owned by the repository (cache logic, classifiers,
the block enhancer, the typewriter loop, the stream coordinator) is
translated line by line from the source files.

JavaScript strings are modelled as Lean `String`s; the JS primitives
`includes`, `startsWith`, `endsWith`, `split`, `trim`, `toUpperCase` and
`toLowerCase` are modelled on the character list of the string so that they
compute inside the kernel and the usual list lemmas apply.  Case mapping is
the ASCII one and `trim` strips the four common whitespace characters,
which agrees with the JavaScript behaviour on every string this
development evaluates.
-/

set_option maxRecDepth 10000

namespace DbGenie

/-- JavaScript `String.prototype.includes`: `strContains s pat` is true when
`pat` occurs as a contiguous substring of `s`. -/
def strContains (s pat : String) : Bool :=
  (List.range (s.data.length + 1)).any
    (fun i => pat.data.isPrefixOf (s.data.drop i))

/-- JavaScript `String.prototype.startsWith`. -/
def jsStartsWith (s pat : String) : Bool :=
  pat.data.isPrefixOf s.data

/-- JavaScript `String.prototype.endsWith`. -/
def jsEndsWith (s pat : String) : Bool :=
  pat.data.isSuffixOf s.data

/-- JavaScript `String.prototype.toLowerCase` (ASCII case mapping). -/
def jsToLower (s : String) : String :=
  String.mk (s.data.map Char.toLower)

/-- JavaScript `String.prototype.toUpperCase` (ASCII case mapping). -/
def jsToUpper (s : String) : String :=
  String.mk (s.data.map Char.toUpper)

/-- JavaScript `String.prototype.trim`. -/
def jsTrim (s : String) : String :=
  String.mk (((s.data.dropWhile Char.isWhitespace).reverse.dropWhile
    Char.isWhitespace).reverse)

/-- JavaScript `String.prototype.split` with a one-character separator (the
sources only split on `"\n"` and `" "`). -/
def jsSplit (sep : Char) (s : String) : List String :=
  (List.splitOn sep s.data).map String.mk

theorem strContains_iff (s pat : String) :
    strContains s pat = true ↔ ∃ i, pat.data.isPrefixOf (s.data.drop i) = true := by
  unfold strContains
  rw [List.any_eq_true]
  constructor
  · rintro ⟨i, _, h⟩
    exact ⟨i, h⟩
  · rintro ⟨i, h⟩
    by_cases hi : i ≤ s.data.length
    · exact ⟨i, List.mem_range.mpr (Nat.lt_succ_of_le hi), h⟩
    · refine ⟨s.data.length, List.mem_range.mpr (Nat.lt_succ_self _), ?_⟩
      rw [List.drop_length]
      rw [List.drop_eq_nil_of_le (Nat.le_of_lt (Nat.lt_of_not_le hi))] at h
      exact h

/-- The fixed SQL keyword list of `isSqlContent` in
`static/js/components/code-blocks.js` (lines 38-51). -/
def sqlKeywords : List String :=
  ["SELECT", "INSERT", "UPDATE", "DELETE", "CREATE", "ALTER",
   "DROP", "SHOW", "USE", "DESCRIBE", "DESC", "EXPLAIN"]

/-- Embedding of `isSqlContent(text, className)` from
`static/js/components/code-blocks.js` lines 31-62: true when the class name
contains "sql" (case-insensitively), or some line, trimmed and upper-cased,
starts with a keyword followed by a space or equals the keyword. -/
def isSqlContent (text : String) (className : String) : Bool :=
  if strContains (jsToLower className) "sql" then
    true
  else
    (jsSplit '\n' text).any (fun line =>
      sqlKeywords.any (fun keyword =>
        jsStartsWith (jsToUpper (jsTrim line)) (keyword ++ " ") ||
          jsToUpper (jsTrim line) == keyword))

/-- The SQL classifier condition exactly as claim C4 words it: the hinted
tag names SQL, or some line, trimmed and compared case-insensitively,
starts with a keyword followed by WHITESPACE, or equals the keyword
exactly.  Stated from the claim's words, to be compared with the source
translation `isSqlContent`. -/
def claimSqlContent (text : String) (className : String) : Prop :=
  strContains (jsToLower className) "sql" = true ∨
    ∃ line ∈ jsSplit '\n' text, ∃ keyword ∈ sqlKeywords,
      jsToUpper (jsTrim line) = keyword ∨
        ∃ c : Char, c.isWhitespace ∧
          (keyword.data ++ [c]) <+: (jsToUpper (jsTrim line)).data

/-- The same condition with "followed by whitespace" narrowed to "followed
by a space (U+0020)", which is what the source actually checks. -/
def claimSqlContentSpace (text : String) (className : String) : Prop :=
  strContains (jsToLower className) "sql" = true ∨
    ∃ line ∈ jsSplit '\n' text, ∃ keyword ∈ sqlKeywords,
      jsToUpper (jsTrim line) = keyword ∨
        (keyword.data ++ [' ']) <+: (jsToUpper (jsTrim line)).data

/-- Boolean test deciding the whitespace-successor condition of
`claimSqlContent` for one line and keyword. -/
def claimSqlLineB (line keyword : String) : Bool :=
  jsToUpper (jsTrim line) == keyword ||
    (keyword.data.isPrefixOf (jsToUpper (jsTrim line)).data &&
      (match (jsToUpper (jsTrim line)).data.drop keyword.data.length with
        | c :: _ => c.isWhitespace
        | [] => false))

theorem claimSqlLineB_iff (line keyword : String) :
    claimSqlLineB line keyword = true ↔
      (jsToUpper (jsTrim line) = keyword ∨
        ∃ c : Char, c.isWhitespace ∧
          (keyword.data ++ [c]) <+: (jsToUpper (jsTrim line)).data) := by
  unfold claimSqlLineB
  simp only [Bool.or_eq_true, beq_iff_eq, Bool.and_eq_true, List.isPrefixOf_iff_prefix]
  constructor
  · rintro (h | ⟨hpre, hc⟩)
    · exact Or.inl h
    · refine Or.inr ?_
      rcases hpre with ⟨rest, hrest⟩
      cases hdrop : ((jsToUpper (jsTrim line)).data).drop keyword.data.length with
      | nil => rw [hdrop] at hc; exact absurd hc (by simp)
      | cons c cs =>
        rw [hdrop] at hc
        refine ⟨c, hc, ?_⟩
        have hlen : ((jsToUpper (jsTrim line)).data).drop keyword.data.length = rest := by
          rw [← hrest, List.drop_left]
        rw [hdrop] at hlen
        refine ⟨cs, ?_⟩
        rw [← hrest, ← hlen]
        simp
  · rintro (h | ⟨c, hc, rest, hrest⟩)
    · exact Or.inl h
    · refine Or.inr ⟨⟨[c] ++ rest, by rw [← hrest]; simp⟩, ?_⟩
      have hdrop : ((jsToUpper (jsTrim line)).data).drop keyword.data.length = c :: rest := by
        rw [← hrest, List.append_assoc, List.drop_left]
        rfl
      rw [hdrop]
      exact hc

instance (text className : String) : Decidable (claimSqlContent text className) := by
  refine decidable_of_iff
    (strContains (jsToLower className) "sql" = true ∨
      ∃ line ∈ jsSplit '\n' text, ∃ keyword ∈ sqlKeywords,
        claimSqlLineB line keyword = true) ?_
  unfold claimSqlContent
  constructor
  · rintro (h | ⟨l, hl, k, hk, h⟩)
    · exact Or.inl h
    · exact Or.inr ⟨l, hl, k, hk, (claimSqlLineB_iff l k).mp h⟩
  · rintro (h | ⟨l, hl, k, hk, h⟩)
    · exact Or.inl h
    · exact Or.inr ⟨l, hl, k, hk, (claimSqlLineB_iff l k).mpr h⟩

theorem sqlLine_code_iff (line keyword : String) :
    (jsStartsWith (jsToUpper (jsTrim line)) (keyword ++ " ") ||
        jsToUpper (jsTrim line) == keyword) = true ↔
      (jsToUpper (jsTrim line) = keyword ∨
        (keyword.data ++ [' ']) <+: (jsToUpper (jsTrim line)).data) := by
  have htl : (keyword ++ " ").data = keyword.data ++ [' '] := String.data_append ..
  simp only [jsStartsWith, Bool.or_eq_true, beq_iff_eq,
    List.isPrefixOf_iff_prefix, htl]
  tauto

/-- Claim C4, counterexample: the claim reads "starts with one of the
keywords followed by whitespace", but the source checks for the keyword
followed by one SPACE character.  On the input "SELECT\t1" (tab after the
keyword) the claim condition holds while `isSqlContent` returns false. -/
theorem C4_counterexample :
    isSqlContent "SELECT\t1" "" = false ∧ claimSqlContent "SELECT\t1" "" := by
  constructor
  · decide
  · decide

/-- Claim C4 (amended): `isSqlContent(text, hintedTag)` returns true if and
only if the hinted tag names SQL, or some line of text, trimmed and compared
case-insensitively, starts with one of the keywords {SELECT, INSERT, UPDATE,
DELETE, CREATE, ALTER, DROP, SHOW, USE, DESCRIBE, DESC, EXPLAIN} followed by
a SPACE or equals the keyword exactly; in particular
`isSqlContent("SELECT * FROM t")` = true and `isSqlContent("hello world")`
= false. -/
theorem C4_isSqlContent_characterization :
    (∀ text className, isSqlContent text className = true ↔
        claimSqlContentSpace text className) ∧
      isSqlContent "SELECT * FROM t" "" = true ∧
      isSqlContent "hello world" "" = false := by
  refine ⟨fun text className => ?_, by decide, by decide⟩
  unfold isSqlContent claimSqlContentSpace
  cases hb : strContains (jsToLower className) "sql" with
  | true => simp [hb]
  | false =>
    simp only [hb, Bool.false_eq_true, if_false, false_or, List.any_eq_true]
    constructor
    · rintro ⟨l, hl, k, hk, h⟩
      exact ⟨l, hl, k, hk, (sqlLine_code_iff l k).mp h⟩
    · rintro ⟨l, hl, k, hk, h⟩
      exact ⟨l, hl, k, hk, (sqlLine_code_iff l k).mpr h⟩

/-- Claim C4, witness: the characterization applied at a concrete input. -/
theorem C4_witness : claimSqlContentSpace "SELECT 1" "" :=
  (C4_isSqlContent_characterization.1 "SELECT 1" "").mp (by decide)

/-! ## JSON acceptance, modelling the host `JSON.parse`

`_detectLanguage` in the refactored markdown service calls the browser
builtin `JSON.parse` and only observes whether it throws.  The builtin is
not part of the repository, so its acceptance is modelled from the JSON
grammar (ECMA-404): a JSON text is a single value surrounded by optional
whitespace.  Only acceptance is modelled, not the parsed value. -/

/-- Whitespace of the JSON grammar. -/
def jsonWs (c : Char) : Bool :=
  c = ' ' || c = '\t' || c = '\n' || c = '\r'

/-- Drop leading JSON whitespace. -/
def skipWs (l : List Char) : List Char :=
  l.dropWhile jsonWs

/-- Opening brace character, U+007B. -/
def lbraceChar : Char := Char.ofNat 123

/-- Closing brace character, U+007D. -/
def rbraceChar : Char := Char.ofNat 125

/-- Opening brace as a one-character string. -/
def lbraceStr : String := String.mk [lbraceChar]

/-- Closing brace as a one-character string. -/
def rbraceStr : String := String.mk [rbraceChar]

/-- Hexadecimal digit test for JSON `\\u` escapes. -/
def isHexDigitChar (c : Char) : Bool :=
  c.isDigit || ('a' ≤ c && c ≤ 'f') || ('A' ≤ c && c ≤ 'F')

/-- Consume the body of a JSON string after the opening quote, including the
closing quote; returns the remaining input. -/
def parseStringBody : List Char → Option (List Char)
  | [] => none
  | c :: rest =>
    if c = '\"' then some rest
    else if c = '\\' then
      match rest with
      | [] => none
      | e :: rest2 =>
        if e = '\"' || e = '\\' || e = '/' || e = 'b' || e = 'f' ||
            e = 'n' || e = 'r' || e = 't' then
          parseStringBody rest2
        else if e = 'u' then
          match rest2 with
          | h1 :: h2 :: h3 :: h4 :: rest3 =>
            if isHexDigitChar h1 && isHexDigitChar h2 &&
                isHexDigitChar h3 && isHexDigitChar h4 then
              parseStringBody rest3
            else none
          | _ => none
        else none
    else if c.val < 32 then none
    else parseStringBody rest
  termination_by l => l.length
  decreasing_by all_goals simp_arith [List.length]

/-- Consume the integer part of a JSON number (after any minus sign): `0`,
or a nonzero digit followed by digits. -/
def parseIntPart : List Char → Option (List Char)
  | [] => none
  | c :: rest =>
    if c = '0' then some rest
    else if c.isDigit then some (rest.dropWhile Char.isDigit)
    else none

/-- Consume an optional fraction part. -/
def parseFrac : List Char → Option (List Char)
  | '.' :: c :: rest =>
    if c.isDigit then some ((c :: rest).dropWhile Char.isDigit) else none
  | '.' :: [] => none
  | l => some l

/-- Consume an optional exponent part. -/
def parseExp : List Char → Option (List Char)
  | [] => some []
  | e :: rest =>
    if e = 'e' || e = 'E' then
      let rest2 := match rest with
        | s :: r => if s = '+' || s = '-' then r else s :: r
        | [] => []
      match rest2 with
      | d :: r => if d.isDigit then some ((d :: r).dropWhile Char.isDigit) else none
      | [] => none
    else some (e :: rest)

/-- Consume a JSON number. -/
def parseNumber (l : List Char) : Option (List Char) :=
  let l1 := match l with
    | '-' :: r => r
    | _ => l
  match parseIntPart l1 with
  | none => none
  | some l2 =>
    match parseFrac l2 with
    | none => none
    | some l3 => parseExp l3

mutual

/-- Consume one JSON value (with leading whitespace); fuel-indexed. -/
def parseVal : Nat → List Char → Option (List Char)
  | 0, _ => none
  | fuel + 1, l =>
    match skipWs l with
    | [] => none
    | c :: rest =>
      if c = '\"' then parseStringBody rest
      else if c = lbraceChar then parseObjBody fuel rest
      else if c = '[' then parseArrBody fuel rest
      else if ['n', 'u', 'l', 'l'].isPrefixOf (c :: rest) then some ((c :: rest).drop 4)
      else if ['t', 'r', 'u', 'e'].isPrefixOf (c :: rest) then some ((c :: rest).drop 4)
      else if ['f', 'a', 'l', 's', 'e'].isPrefixOf (c :: rest) then some ((c :: rest).drop 5)
      else parseNumber (c :: rest)

/-- Consume the members and closing brace of a JSON object, after the
opening brace. -/
def parseObjBody : Nat → List Char → Option (List Char)
  | 0, _ => none
  | fuel + 1, l =>
    match skipWs l with
    | [] => none
    | c :: rest =>
      if c = rbraceChar then some rest else parseMembers fuel (c :: rest)

/-- Consume one or more `string : value` members followed by the closing
brace. -/
def parseMembers : Nat → List Char → Option (List Char)
  | 0, _ => none
  | fuel + 1, l =>
    match skipWs l with
    | [] => none
    | c :: rest =>
      if c = '\"' then
        match parseStringBody rest with
        | none => none
        | some l2 =>
          match skipWs l2 with
          | ':' :: l3 =>
            match parseVal fuel l3 with
            | none => none
            | some l4 =>
              match skipWs l4 with
              | ',' :: l5 => parseMembers fuel l5
              | c2 :: l6 => if c2 = rbraceChar then some l6 else none
              | [] => none
          | _ => none
      else none

/-- Consume the elements and closing bracket of a JSON array, after the
opening bracket. -/
def parseArrBody : Nat → List Char → Option (List Char)
  | 0, _ => none
  | fuel + 1, l =>
    match skipWs l with
    | [] => none
    | c :: rest =>
      if c = ']' then some rest else parseElems fuel (c :: rest)

/-- Consume one or more values followed by the closing bracket. -/
def parseElems : Nat → List Char → Option (List Char)
  | 0, _ => none
  | fuel + 1, l =>
    match parseVal fuel l with
    | none => none
    | some l2 =>
      match skipWs l2 with
      | ',' :: l3 => parseElems fuel l3
      | c :: l4 => if c = ']' then some l4 else none
      | [] => none

end

/-- Modelled from the spec: acceptance of the host `JSON.parse` (ECMA-404:
one JSON value surrounded by optional whitespace, with nothing left over).
The fuel `3 * length + 3` dominates the recursion depth, which consumes at
least one input character for every three fuel steps. -/
def jsonParses (s : String) : Bool :=
  match parseVal (3 * s.data.length + 3) s.data with
  | some rest => (skipWs rest).isEmpty
  | none => false

/-! ## The refactored markdown service classifier (`src/unnamed/part_001`) -/

/-- Embedding of `_isSqlContent(code, className)` from the refactored
markdown service (`src/unnamed/part_001` lines 203-227): the class name
contains "sql", or the upper-cased code contains a keyword followed by a
space anywhere, or the upper-cased code, trimmed, starts with a keyword. -/
def isSqlContentMd (code : String) (className : String) : Bool :=
  if strContains (jsToLower className) "sql" then true
  else
    sqlKeywords.any (fun keyword =>
      strContains (jsToUpper code) (keyword ++ " ") ||
        jsStartsWith (jsTrim (jsToUpper code)) keyword)

/-- The fixed diagram keyword list of `_isMermaidContent`
(`src/unnamed/part_001` lines 230-244). -/
def mermaidKeywords : List String :=
  ["graph", "sequencediagram", "classdiagram", "statediagram", "erdiagram",
   "pie", "gantt", "journey", "flowchart", "gitgraph", "mindmap",
   "timeline", "quadrantchart"]

/-- Embedding of `_isMermaidContent(code)` from `src/unnamed/part_001`
lines 229-257: some line of the trimmed code, itself trimmed and
lower-cased, starts with a diagram keyword followed by a space or a colon,
or equals the keyword. -/
def isMermaidContent (code : String) : Bool :=
  (jsSplit '\n' (jsTrim code)).any (fun line =>
    mermaidKeywords.any (fun keyword =>
      jsStartsWith (jsToLower (jsTrim line)) (keyword ++ " ") ||
        jsToLower (jsTrim line) == keyword ||
        jsStartsWith (jsToLower (jsTrim line)) (keyword ++ ":")))

/-- The brace/bracket delimiter test guarding the JSON branch of
`_detectLanguage` (`src/unnamed/part_001` lines 169-172). -/
def jsonDelimited (trimmed : String) : Bool :=
  (jsStartsWith trimmed lbraceStr && jsEndsWith trimmed rbraceStr) ||
    (jsStartsWith trimmed "[" && jsEndsWith trimmed "]")

/-- Embedding of `_detectLanguage(code)` from `src/unnamed/part_001` lines
159-201: SQL, then mermaid, then JSON (delimiter test plus `JSON.parse`
acceptance), then the python heuristics, then the javascript heuristics,
then null. -/
def detectLanguage (code : String) : Option String :=
  if isSqlContentMd code "" then some "sql"
  else if isMermaidContent code then some "mermaid"
  else if jsonDelimited (jsTrim code) && jsonParses (jsTrim code) then some "json"
  else if strContains code "def " || strContains code "import " ||
      strContains code "from " then some "python"
  else if strContains code "function" || strContains code "=>" ||
      strContains code "const " then some "javascript"
  else none

/-- Claim C5, counterexample: the claim says that for non-SQL, non-diagram
text the JSON tag is returned exactly when the trimmed text parses as a
JSON value.  The input "true" parses as a JSON value, is neither SQL nor
diagram content, yet `_detectLanguage` returns null because the text is not
brace- or bracket-delimited. -/
theorem C5_counterexample :
    isSqlContentMd "true" "" = false ∧ isMermaidContent "true" = false ∧
      jsonParses (jsTrim "true") = true ∧ detectLanguage "true" = none := by
  refine ⟨by decide, by decide, by decide, by decide⟩

/-- Claim C5 (amended): `detectLanguage` applies the precedence order SQL,
then diagram, then JSON, then import/def-style heuristics, then
function/arrow/declaration-style heuristics, then none; and for text that
is neither SQL nor diagram content it returns the JSON tag exactly when the
trimmed text is brace- or bracket-delimited AND parses as a JSON value. -/
theorem C5_detectLanguage_precedence :
    (∀ code, isSqlContentMd code "" = true → detectLanguage code = some "sql") ∧
    (∀ code, isSqlContentMd code "" = false → isMermaidContent code = true →
      detectLanguage code = some "mermaid") ∧
    (∀ code, isSqlContentMd code "" = false → isMermaidContent code = false →
      (detectLanguage code = some "json" ↔
        (jsonDelimited (jsTrim code) && jsonParses (jsTrim code)) = true)) ∧
    (∀ code, isSqlContentMd code "" = false → isMermaidContent code = false →
      (jsonDelimited (jsTrim code) && jsonParses (jsTrim code)) = false →
      (strContains code "def " || strContains code "import " ||
        strContains code "from ") = true →
      detectLanguage code = some "python") ∧
    (∀ code, isSqlContentMd code "" = false → isMermaidContent code = false →
      (jsonDelimited (jsTrim code) && jsonParses (jsTrim code)) = false →
      (strContains code "def " || strContains code "import " ||
        strContains code "from ") = false →
      (strContains code "function" || strContains code "=>" ||
        strContains code "const ") = true →
      detectLanguage code = some "javascript") ∧
    (∀ code, isSqlContentMd code "" = false → isMermaidContent code = false →
      (jsonDelimited (jsTrim code) && jsonParses (jsTrim code)) = false →
      (strContains code "def " || strContains code "import " ||
        strContains code "from ") = false →
      (strContains code "function" || strContains code "=>" ||
        strContains code "const ") = false →
      detectLanguage code = none) := by
  refine ⟨?_, ?_, ?_, ?_, ?_, ?_⟩
  · intro code h
    simp [detectLanguage, h]
  · intro code h1 h2
    simp [detectLanguage, h1, h2]
  · intro code h1 h2
    cases hj : (jsonDelimited (jsTrim code) && jsonParses (jsTrim code)) with
    | true => simp [detectLanguage, h1, h2, hj]
    | false =>
      simp only [detectLanguage, h1, h2, hj, Bool.false_eq_true, if_false,
        Bool.and_eq_true, iff_false, false_iff]
      split
      · simp
      · split <;> simp
  · intro code h1 h2 h3 h4
    simp [detectLanguage, h1, h2, h3, h4]
  · intro code h1 h2 h3 h4 h5
    simp [detectLanguage, h1, h2, h3, h4, h5]
  · intro code h1 h2 h3 h4 h5
    simp [detectLanguage, h1, h2, h3, h4, h5]

/-- Claim C5, witness: the precedence facts applied at concrete inputs. -/
theorem C5_witness : detectLanguage "[1, 2]" = some "json" :=
  (C5_detectLanguage_precedence.2.2.1 "[1, 2]" (by decide) (by decide)).mpr (by decide)

/-! ## The markdown service caches (`static/js/services/markdown-service.js`)

The service holds two JS `Map`s, `this.cache` and `this.partialCache`
(the latter is named `partCache` here), and `this.maxCacheSize = 100`.
A JS `Map` iterates in insertion order, so it is modelled as an
association list with the oldest entry first; `keys().next().value` is the
head key and `set` on a fresh key appends.  The body of the full render —
`marked.parse`, `DOMPurify.sanitize` and the DOM post-processing of lines
21-155 — involves only external libraries and the host DOM and is the
oracle parameter `body`. -/

/-- The configured cache bound (`this.maxCacheSize = 100`). -/
def maxCacheSize : Nat := 100

/-- A JS `Map` restricted to the operations the markdown service uses. -/
structure JsMap where
  entries : List (String × String)
deriving Repr, DecidableEq

namespace JsMap

/-- `map.size`. -/
def size (m : JsMap) : Nat := m.entries.length

/-- `map.has(k)`. -/
def hasKey (m : JsMap) (k : String) : Bool := m.entries.any (fun e => e.1 == k)

/-- `map.get(k)`, as an option. -/
def getVal (m : JsMap) (k : String) : Option String :=
  (m.entries.find? (fun e => e.1 == k)).map (fun e => e.2)

/-- `map.delete(k)`. -/
def deleteKey (m : JsMap) (k : String) : JsMap :=
  ⟨m.entries.eraseP (fun e => e.1 == k)⟩

/-- `map.delete(map.keys().next().value)`: remove the oldest-inserted
entry (a no-op on an empty map, where `keys().next().value` is
undefined). -/
def deleteFirstKey (m : JsMap) : JsMap :=
  match m.entries.head? with
  | some e => m.deleteKey e.1
  | none => m

/-- `map.set(k, v)`: update in place if present, append if fresh. -/
def setKey (m : JsMap) (k v : String) : JsMap :=
  if m.hasKey k then ⟨m.entries.map (fun e => if e.1 == k then (k, v) else e)⟩
  else ⟨m.entries ++ [(k, v)]⟩

/-- The empty map. -/
def empty : JsMap := ⟨[]⟩

theorem setKey_size_le (m : JsMap) (k v : String) :
    (m.setKey k v).size ≤ m.size + 1 := by
  unfold setKey size
  split
  · simp
  · simp

theorem deleteFirstKey_size (m : JsMap) (e : String × String) (rest : List (String × String))
    (h : m.entries = e :: rest) : (m.deleteFirstKey).size = m.size - 1 := by
  unfold deleteFirstKey deleteKey size
  rw [h]
  simp [List.eraseP_cons]

theorem deleteFirstKey_size_le (m : JsMap) : (m.deleteFirstKey).size ≤ m.size := by
  cases h : m.entries with
  | nil => unfold deleteFirstKey; rw [h]; simp
  | cons e rest =>
    rw [deleteFirstKey_size m e rest h]
    exact Nat.sub_le _ _

end JsMap

/-- The mutable state of the singleton `MarkdownService`: the full-render
cache `this.cache` and the partial-render cache `this.partialCache`. -/
structure MDState where
  cache : JsMap
  partCache : JsMap
deriving Repr, DecidableEq

/-- The freshly constructed service: two empty maps. -/
def mdInit : MDState := ⟨JsMap.empty, JsMap.empty⟩

/-- Embedding of `processFullMarkdown(content)` from
`static/js/services/markdown-service.js` lines 9-158: return the cached
markup when present; otherwise evict the oldest full-cache entry when the
cache is over the bound, compute the markup with the external `body`, store
it under `"full_" + content` and return it. -/
def processFullMarkdown (body : String → String) (st : MDState) (content : String) :
    String × MDState :=
  match st.cache.getVal ("full_" ++ content) with
  | some v => (v, st)
  | none =>
    let cache1 := if st.cache.size > maxCacheSize then st.cache.deleteFirstKey
      else st.cache
    let result := body content
    (result, { st with cache := cache1.setKey ("full_" ++ content) result })

/-- Embedding of `processPartialMarkdown(partialContent, fullContent)` from
`static/js/services/markdown-service.js` lines 160-182: return the cached
partial markup when present; otherwise evict the oldest partial-cache entry
when over the bound; for content shorter than 20 characters delegate to
`processFullMarkdown` without caching; otherwise compute via
`processFullMarkdown` and also store the result under
`"partial_" + content`. -/
def processPartialMarkdown (body : String → String) (st : MDState) (content : String) :
    String × MDState :=
  match st.partCache.getVal ("partial_" ++ content) with
  | some v => (v, st)
  | none =>
    let st1 := { st with
      partCache := if st.partCache.size > maxCacheSize then st.partCache.deleteFirstKey
        else st.partCache }
    if content.data.length < 20 then
      processFullMarkdown body st1 content
    else
      let r := processFullMarkdown body st1 content
      (r.1, { r.2 with partCache := r.2.partCache.setKey ("partial_" ++ content) r.1 })

/-- `clearPartialCache()` from lines 191-193. -/
def clearPartialCache (st : MDState) : MDState :=
  { st with partCache := JsMap.empty }

/-- `clearCache()` from lines 185-188. -/
def clearCache (_st : MDState) : MDState :=
  ⟨JsMap.empty, JsMap.empty⟩

theorem processFullMarkdown_partCache (body : String → String) (st : MDState)
    (content : String) :
    ((processFullMarkdown body st content).2).partCache = st.partCache := by
  unfold processFullMarkdown
  cases st.cache.getVal ("full_" ++ content) <;> simp

theorem evict_bound (m : JsMap) (h : m.size ≤ maxCacheSize + 1) :
    (if m.size > maxCacheSize then m.deleteFirstKey else m).size ≤ maxCacheSize := by
  by_cases hs : m.size > maxCacheSize
  · rw [if_pos hs]
    cases he : m.entries with
    | nil =>
      exfalso
      unfold JsMap.size at hs
      rw [he] at hs
      simp at hs
    | cons e rest =>
      rw [JsMap.deleteFirstKey_size m e rest he]
      omega
  · rw [if_neg hs]
    omega

theorem processFullMarkdown_cache_bound (body : String → String) (st : MDState)
    (content : String) (h : st.cache.size ≤ maxCacheSize + 1) :
    ((processFullMarkdown body st content).2).cache.size ≤ maxCacheSize + 1 := by
  unfold processFullMarkdown
  cases hg : st.cache.getVal ("full_" ++ content) with
  | some v => simpa using h
  | none =>
    simp only
    calc ((if st.cache.size > maxCacheSize then st.cache.deleteFirstKey
            else st.cache).setKey ("full_" ++ content) (body content)).size
        ≤ (if st.cache.size > maxCacheSize then st.cache.deleteFirstKey
            else st.cache).size + 1 := JsMap.setKey_size_le ..
      _ ≤ maxCacheSize + 1 := by
            have := evict_bound st.cache h
            omega

theorem processPartialMarkdown_cache_bound (body : String → String) (st : MDState)
    (content : String) (h : st.cache.size ≤ maxCacheSize + 1) :
    ((processPartialMarkdown body st content).2).cache.size ≤ maxCacheSize + 1 := by
  unfold processPartialMarkdown
  cases hg : st.partCache.getVal ("partial_" ++ content) with
  | some v => simpa using h
  | none =>
    simp only
    split
    · exact processFullMarkdown_cache_bound body _ content h
    · exact processFullMarkdown_cache_bound body _ content h

theorem processPartialMarkdown_partCache_bound (body : String → String) (st : MDState)
    (content : String) (h : st.partCache.size ≤ maxCacheSize + 1) :
    ((processPartialMarkdown body st content).2).partCache.size ≤ maxCacheSize + 1 := by
  unfold processPartialMarkdown
  cases hg : st.partCache.getVal ("partial_" ++ content) with
  | some v => simpa using h
  | none =>
    simp only
    have h1 : (if st.partCache.size > maxCacheSize then st.partCache.deleteFirstKey
        else st.partCache).size ≤ maxCacheSize := evict_bound st.partCache h
    split
    · rw [processFullMarkdown_partCache]
      simp only
      omega
    · calc ((processFullMarkdown body _ content).2.partCache.setKey
            ("partial_" ++ content) (processFullMarkdown body _ content).1).size
          ≤ (processFullMarkdown body _ content).2.partCache.size + 1 :=
            JsMap.setKey_size_le ..
        _ ≤ maxCacheSize + 1 := by
              rw [processFullMarkdown_partCache]
              simp only
              omega

/-- One operation against the markdown service singleton. -/
inductive MDOp where
  | full (content : String)
  | part (content : String)
  | clearPart
  | clearAll
deriving Repr, DecidableEq

/-- Apply one service operation (discarding the returned markup). -/
def mdStep (body : String → String) (st : MDState) : MDOp → MDState
  | .full c => (processFullMarkdown body st c).2
  | .part c => (processPartialMarkdown body st c).2
  | .clearPart => clearPartialCache st
  | .clearAll => clearCache st

/-- Run a sequence of service operations from the fresh service. -/
def runMD (body : String → String) (ops : List MDOp) : MDState :=
  ops.foldl (mdStep body) mdInit

/-- Both caches hold at most `maxCacheSize + 1` entries. -/
def mdBounded (st : MDState) : Prop :=
  st.cache.size ≤ maxCacheSize + 1 ∧ st.partCache.size ≤ maxCacheSize + 1

theorem mdStep_bounded (body : String → String) (st : MDState) (op : MDOp)
    (h : mdBounded st) : mdBounded (mdStep body st op) := by
  cases op with
  | full c =>
    exact ⟨processFullMarkdown_cache_bound body st c h.1, by
      rw [mdStep, processFullMarkdown_partCache]; exact h.2⟩
  | part c =>
    exact ⟨processPartialMarkdown_cache_bound body st c h.1,
      processPartialMarkdown_partCache_bound body st c h.2⟩
  | clearPart => exact ⟨h.1, by simp [mdStep, clearPartialCache, JsMap.empty, JsMap.size]⟩
  | clearAll => exact ⟨by simp [mdStep, clearCache, JsMap.empty, JsMap.size], by
      simp [mdStep, clearCache, JsMap.empty, JsMap.size]⟩

theorem runMD_bounded (body : String → String) (ops : List MDOp) :
    mdBounded (runMD body ops) := by
  have hgen : ∀ (l : List MDOp) (st : MDState), mdBounded st →
      mdBounded (l.foldl (mdStep body) st) := by
    intro l
    induction l with
    | nil => intro st h; exact h
    | cons op rest ih =>
      intro st h
      exact ih _ (mdStep_bounded body st op h)
  exact hgen ops mdInit ⟨by decide, by decide⟩

/-- Distinct cache keys used to exercise the eviction policy: the decimal
numerals 0, 1, 2, ... -/
def numeralKeys (n : Nat) : List String :=
  (List.range n).map (fun i => String.mk (Nat.toDigits 10 i))

/-- Fold a list of contents through the full-render path with the identity
render body, starting at the fresh service. -/
def fullInsertAll (contents : List String) : MDState :=
  contents.foldl (fun s c => (processFullMarkdown (fun x => x) s c).2) mdInit

/-- Claim C2, counterexample: inserting bound + 1 = 101 distinct keys into
the full cache evicts nothing (the first-inserted key "0" is still
present), and the cache size reaches 101, exceeding the configured bound
of 100 — the eviction check `size > maxCacheSize` runs before the insert. -/
theorem C2_counterexample :
    (fullInsertAll (numeralKeys 101)).cache.size = 101 ∧
      maxCacheSize = 100 ∧
      (fullInsertAll (numeralKeys 101)).cache.hasKey "full_0" = true := by
  refine ⟨by decide, rfl, by decide⟩

/-- Claim C2 (amended): for both the full and the partial caches, after
every sequence of operations the cache size never exceeds maxCacheSize + 1
= 101; inserting (bound + 2) distinct keys evicts exactly the
first-inserted key, first-in-first-out; and lookups do not change recency
(a cache hit returns the stored value and leaves the whole service state
unchanged). -/
theorem C2_cache_bound_fifo :
    (∀ body ops, mdBounded (runMD body ops)) ∧
    ((fullInsertAll (numeralKeys 102)).cache.size = maxCacheSize + 1 ∧
      (fullInsertAll (numeralKeys 102)).cache.hasKey "full_0" = false ∧
      ∀ k ∈ (numeralKeys 102).tail,
        (fullInsertAll (numeralKeys 102)).cache.hasKey ("full_" ++ k) = true) ∧
    (∀ body st content v, st.cache.getVal ("full_" ++ content) = some v →
      processFullMarkdown body st content = (v, st)) ∧
    (∀ body st content v, st.partCache.getVal ("partial_" ++ content) = some v →
      processPartialMarkdown body st content = (v, st)) := by
  refine ⟨runMD_bounded, ⟨by decide, by decide, by decide⟩, ?_, ?_⟩
  · intro body st content v h
    unfold processFullMarkdown
    rw [h]
  · intro body st content v h
    unfold processPartialMarkdown
    rw [h]

/-- Claim C2, witness: a cache hit applied at a concrete state. -/
theorem C2_witness :
    processFullMarkdown (fun _ => "unused") ⟨⟨[("full_a", "V")]⟩, ⟨[]⟩⟩ "a" =
      ("V", ⟨⟨[("full_a", "V")]⟩, ⟨[]⟩⟩) :=
  C2_cache_bound_fifo.2.2.1 (fun _ => "unused") ⟨⟨[("full_a", "V")]⟩, ⟨[]⟩⟩ "a" "V"
    (by decide)

/-! ## The block enhancer (`static/js/components/code-blocks.js`)

The rendering surface is modelled as a tree of DOM nodes carrying the
attributes the enhancer reads and writes: tag name, `className`, the
inline `style.display` value, and children.  Button `title` attributes and
event listeners are not observable in the serialized markup compared here
and are omitted.  `wrapCodeBlocks` is a pure tree transformation: the two
`querySelectorAll` passes of the source iterate over static node lists
computed before any mutation, which a structural rewrite that does not
re-enter the nodes it creates reproduces exactly. -/

/-- A DOM node: element with tag, className, style.display and children,
or a text node. -/
inductive DNode where
  | elem (tag className style : String) (children : List DNode)
  | text (s : String)

mutual

/-- Decidable equality of DOM nodes. -/
def dnodeDecEq : (a b : DNode) → Decidable (a = b)
  | .text s, .text t =>
    match decEq s t with
    | isTrue h => isTrue (by rw [h])
    | isFalse h => isFalse (by intro hh; cases hh; exact h rfl)
  | .text _, .elem _ _ _ _ => isFalse (by intro h; cases h)
  | .elem _ _ _ _, .text _ => isFalse (by intro h; cases h)
  | .elem t1 c1 s1 ch1, .elem t2 c2 s2 ch2 =>
    match decEq t1 t2, decEq c1 c2, decEq s1 s2, dnodeDecEqL ch1 ch2 with
    | isTrue h1, isTrue h2, isTrue h3, isTrue h4 => isTrue (by rw [h1, h2, h3, h4])
    | isFalse h1, _, _, _ => isFalse (by intro hh; cases hh; exact h1 rfl)
    | _, isFalse h2, _, _ => isFalse (by intro hh; cases hh; exact h2 rfl)
    | _, _, isFalse h3, _ => isFalse (by intro hh; cases hh; exact h3 rfl)
    | _, _, _, isFalse h4 => isFalse (by intro hh; cases hh; exact h4 rfl)

/-- Decidable equality of DOM child lists. -/
def dnodeDecEqL : (a b : List DNode) → Decidable (a = b)
  | [], [] => isTrue rfl
  | [], _ :: _ => isFalse (by intro h; cases h)
  | _ :: _, [] => isFalse (by intro h; cases h)
  | a :: l1, b :: l2 =>
    match dnodeDecEq a b, dnodeDecEqL l1 l2 with
    | isTrue h1, isTrue h2 => isTrue (by rw [h1, h2])
    | isFalse h1, _ => isFalse (by intro hh; cases hh; exact h1 rfl)
    | _, isFalse h2 => isFalse (by intro hh; cases hh; exact h2 rfl)

end

instance : DecidableEq DNode := dnodeDecEq

mutual

/-- `node.textContent`: concatenation of all descendant text. -/
def textContent : DNode → String
  | .text s => s
  | .elem _ _ _ children => textContentL children

/-- `textContent` over a child list. -/
def textContentL : List DNode → String
  | [] => ""
  | n :: rest => textContent n ++ textContentL rest

end

/-- `STYLES.codeBlock.join(" ")` from `code-blocks.js` lines 7-15. -/
def codeBlockClass : String :=
  "relative bg-gray-50 dark:bg-black border border-gray-200 dark:border-neutral-800 rounded-lg overflow-hidden shadow-sm hover:shadow-lg transition-all duration-200 p-4"

/-- `STYLES.codeText.join(" ")` from `code-blocks.js` lines 16-21. -/
def codeTextClass : String :=
  "syntax-highlighted bg-transparent text-gray-800 dark:text-white block w-full"

/-- The button container class of `code-blocks.js` lines 111-112. -/
def btnContainerClass : String :=
  "absolute right-2 top-2 flex gap-2 opacity-0 group-hover:opacity-100 transition-opacity duration-200 z-10"

/-- The copy button class of `code-blocks.js` lines 116-117. -/
def copyBtnClass : String :=
  "p-1.5 rounded bg-gray-100 hover:bg-gray-200 dark:bg-gray-700 dark:hover:bg-gray-600 transition-colors"

/-- The run button class of `code-blocks.js` lines 146-147. -/
def runBtnClass : String :=
  "p-1.5 rounded bg-green-500 hover:bg-green-600 text-white shadow-sm hover:shadow-md transition-all duration-200"

/-- The diagram container class of `code-blocks.js` lines 164-165. -/
def diagramContainerClass : String :=
  "mermaid-diagram opacity-0 transform scale-95 bg-gray-50 dark:bg-black rounded-lg p-4 shadow-sm border border-gray-200 dark:border-neutral-800"

/-- The copy button icon markup (`copyBtn.innerHTML`, lines 118-120). -/
def copySvg : String :=
  "<svg class=\"w-4 h-4 theme-text-primary\" fill=\"none\" stroke=\"currentColor\" viewBox=\"0 0 24 24\">\n      <path stroke-linecap=\"round\" stroke-linejoin=\"round\" stroke-width=\"2\" d=\"M8 16H6a2 2 0 01-2-2V6a2 2 0 012-2h8a2 2 0 012 2v2m-6 12h8a2 2 0 002-2v-8a2 2 0 00-2-2h-8a2 2 0 00-2 2v8a2 2 0 002 2z\" />\n    </svg>"

/-- The run button icon markup (`runBtn.innerHTML`, lines 148-151). -/
def runSvg : String :=
  "<svg class=\"w-4 h-4\" fill=\"none\" stroke=\"currentColor\" viewBox=\"0 0 24 24\">\n        <path stroke-linecap=\"round\" stroke-linejoin=\"round\" stroke-width=\"2\" d=\"M14.752 11.168l-3.197-2.132A1 1 0 0010 9.87v4.263a1 1 0 001.555.832l3.197-2.132a1 1 0 000-1.664z\" />\n        <path stroke-linecap=\"round\" stroke-linejoin=\"round\" stroke-width=\"2\" d=\"M21 12a9 9 0 11-18 0 9 9 0 0118 0z\" />\n      </svg>"

/-- First pass of `wrapCodeBlocks` (lines 67-91) on one `pre code` element:
re-tag wrongly highlighted mermaid blocks and mark SQL blocks. -/
def pass1Code (className style : String) (children : List DNode) : DNode :=
  let content := jsTrim (textContentL children)
  if jsStartsWith content "erDiagram" || jsStartsWith content "graph" ||
      jsStartsWith content "sequenceDiagram" || jsStartsWith content "classDiagram" ||
      jsStartsWith content "stateDiagram" || jsStartsWith content "pie" ||
      jsStartsWith content "gantt" || jsStartsWith content "journey" then
    DNode.elem "code" "language-mermaid" style [DNode.text (textContentL children)]
  else if isSqlContent content className then
    if strContains className "sql" then
      DNode.elem "code" className style children
    else
      DNode.elem "code"
        (if className == "" then "language-sql" else className ++ " language-sql")
        style children
  else
    DNode.elem "code" className style children

mutual

/-- Apply the first pass to every `code` element below a `pre`. -/
def pass1 (insidePre : Bool) : DNode → DNode
  | .text s => .text s
  | .elem tag className style children =>
    if tag == "code" && insidePre then pass1Code className style children
    else .elem tag className style (pass1L (insidePre || tag == "pre") children)

/-- `pass1` over a child list. -/
def pass1L (insidePre : Bool) : List DNode → List DNode
  | [] => []
  | n :: rest => pass1 insidePre n :: pass1L insidePre rest

end

mutual

/-- `pre.querySelector("code")`: className, style and children of the first
`code` descendant in document order. -/
def findCode : DNode → Option (String × String × List DNode)
  | .text _ => none
  | .elem tag c s children =>
    if tag == "code" then some (c, s, children) else findCodeL children

/-- `findCode` over a child list. -/
def findCodeL : List DNode → Option (String × String × List DNode)
  | [] => none
  | n :: rest =>
    match findCode n with
    | some r => some r
    | none => findCodeL rest

end

mutual

/-- Replace the first `code` descendant with `new`; the flag reports
whether a replacement happened. -/
def replaceCode (new : DNode) : DNode → DNode × Bool
  | .text s => (.text s, false)
  | .elem tag c s children =>
    if tag == "code" then (new, true)
    else
      let r := replaceCodeL new children
      (.elem tag c s r.1, r.2)

/-- `replaceCode` over a child list, stopping at the first replacement. -/
def replaceCodeL (new : DNode) : List DNode → List DNode × Bool
  | [] => ([], false)
  | n :: rest =>
    let r := replaceCode new n
    if r.2 then (r.1 :: rest, true)
    else
      let r2 := replaceCodeL new rest
      (n :: r2.1, r2.2)

end

/-- Second pass of `wrapCodeBlocks` (lines 94-195) on one `pre` holding a
`code`: restyle both, build the copy (and, for SQL, run) buttons, for
mermaid blocks hide the `pre` and add the diagram container (whose
rendering is asynchronous and external), and wrap everything in a new
`div.relative.group.my-4` put in the `pre`'s place. -/
def pass2Pre (preStyle : String) (children : List DNode)
    (codeClass codeStyle : String) (codeChildren : List DNode) : DNode :=
  let codeText := textContentL codeChildren
  let isSQL := isSqlContent codeText codeClass
  let isMermaid := strContains (jsToLower codeClass) "mermaid"
  let newCode := DNode.elem "code" (codeClass ++ " " ++ codeTextClass)
    codeStyle codeChildren
  let newPre := DNode.elem "pre" codeBlockClass
    (if isMermaid then "none" else preStyle) (replaceCodeL newCode children).1
  let copyBtn := DNode.elem "button" copyBtnClass "" [DNode.text copySvg]
  let runBtn := DNode.elem "button" runBtnClass "" [DNode.text runSvg]
  let buttons := DNode.elem "div" btnContainerClass ""
    ([copyBtn] ++ if isSQL then [runBtn] else [])
  let diagramContainer := DNode.elem "div" diagramContainerClass "" []
  DNode.elem "div" "relative group my-4" ""
    ((if isMermaid then [diagramContainer] else []) ++ [buttons, newPre])

mutual

/-- Apply the second pass to every `pre` element. -/
def pass2 : DNode → DNode
  | .text s => .text s
  | .elem tag className style children =>
    if tag == "pre" then
      match findCodeL children with
      | none => .elem tag className style (pass2L children)
      | some (cc, cs, cch) => pass2Pre style children cc cs cch
    else .elem tag className style (pass2L children)

/-- `pass2` over a child list. -/
def pass2L : List DNode → List DNode
  | [] => []
  | n :: rest => pass2 n :: pass2L rest

end

/-- Embedding of `wrapCodeBlocks(textDiv, elements)` from
`static/js/components/code-blocks.js` lines 65-196: the first pass over
`pre code`, then the second pass over `pre`, applied to the children of the
surface root. -/
def wrapCodeBlocks : DNode → DNode
  | .text s => .text s
  | .elem tag c s children => .elem tag c s (pass2L (pass1L false children))

mutual

/-- Number of copy-button elements in a node. -/
def countCopy : DNode → Nat
  | .text _ => 0
  | .elem _ c _ children => (if c == copyBtnClass then 1 else 0) + countCopyL children

/-- `countCopy` over a child list. -/
def countCopyL : List DNode → Nat
  | [] => 0
  | n :: rest => countCopy n + countCopyL rest

end

/-- A surface holding one already-rendered plain code block. -/
def demoSurface : DNode :=
  .elem "div" "" ""
    [.elem "pre" "" "" [.elem "code" "" "" [.text "hello world"]]]

/-- Claim C1: the enhancement pass is NOT idempotent.  On a surface with
one plain code block, a second invocation of `wrapCodeBlocks` wraps the
already-wrapped block again and duplicates the copy affordance: the source
carries no effective "processed" marker (the `part_003` variant writes
`dataset.wrapped` on the new wrapper but tests it on the `pre`, which
never carries it). -/
theorem C1_wrapCodeBlocks_not_idempotent :
    wrapCodeBlocks (wrapCodeBlocks demoSurface) ≠ wrapCodeBlocks demoSurface ∧
      countCopy (wrapCodeBlocks demoSurface) = 1 ∧
      countCopy (wrapCodeBlocks (wrapCodeBlocks demoSurface)) = 2 := by
  refine ⟨by decide, by decide, by decide⟩

/-! ## The reveal animator (`static/js/components/typewriter.js`)

`optimizedTypeWriter(elements, text, element, callback)` splits the text
into words and, on every animation frame, types `CHARS_PER_FRAME = 8`
characters, re-renders the partial markup after at least
`MARKDOWN_PROCESS_INTERVAL = 20` new characters (or at the end), and on
the final frame assigns `processFullMarkdown(text)` to the surface and
invokes the callback.  The source's word index `i` is represented by the
suffix `rest` of the word array that is not yet fully typed (`i <
words.length` is `rest ≠ []` and `words[i]` is the head of `rest`); the
partial and full renders are the oracle parameters `rp` and `rf` standing
for the markdown service calls; scroll tracking touches only the host
scroll position and is omitted.  `doneCalls` counts callback invocations
and `done` records that no further frame is scheduled.  The frame body of
`animateText` (lines 26-68) is split into its three sequential steps:
typing (`typeChars`), the conditional partial render (`renderStep`) and
the completion check (`finishStep`). -/

/-- The animator state between frames. -/
structure TWState where
  rest : List String
  j : Nat
  currentText : String
  lastProcessedLength : Nat
  content : String
  doneCalls : Nat
  done : Bool
deriving Repr, DecidableEq

/-- JavaScript `w.charAt(j)`: a one-character string, or "" out of range. -/
def charAtStr (w : String) (j : Nat) : String :=
  match w.data.get? j with
  | some c => String.mk [c]
  | none => ""

/-- One iteration of the inner typing loop (`typewriter.js` lines 30-41):
append `words[i].charAt(j)`, increment `j`, and advance to the next word
with a trailing space once `j` passes the word length. -/
def tick (s : TWState) : TWState :=
  match s.rest with
  | [] => s
  | w :: ws =>
    if s.j + 1 = w.data.length + 1 then
      { s with rest := ws, j := 0,
               currentText := s.currentText ++ charAtStr w s.j ++ " " }
    else
      { s with j := s.j + 1, currentText := s.currentText ++ charAtStr w s.j }

/-- The inner `for` loop: up to `k` ticks while words remain. -/
def typeChars : Nat → TWState → TWState
  | 0, s => s
  | k + 1, s =>
    match s.rest with
    | [] => s
    | _ :: _ => typeChars k (tick s)

/-- The conditional partial re-render of `typewriter.js` lines 44-53:
`element.innerHTML = processPartialMarkdown(currentText.trim(), text)` once
at least 20 characters accumulated since the last render, or on the final
frame. -/
def renderStep (rp : String → String) (s1 : TWState) : TWState :=
  if 20 ≤ s1.currentText.data.length - s1.lastProcessedLength ∨ s1.rest = [] then
    { s1 with content := rp (jsTrim s1.currentText),
              lastProcessedLength := s1.currentText.data.length }
  else s1

/-- The completion check of `typewriter.js` lines 61-67: while words remain
the next frame is scheduled; otherwise the final
`element.innerHTML = processFullMarkdown(text)` runs and the callback is
invoked. -/
def finishStep (rf : String → String) (text : String) (s2 : TWState) : TWState :=
  match s2.rest with
  | _ :: _ => s2
  | [] => { s2 with content := rf text, doneCalls := s2.doneCalls + 1, done := true }

/-- One animation frame (`animateText`, `typewriter.js` lines 26-68). -/
def animateText (rp rf : String → String) (text : String) (s : TWState) : TWState :=
  finishStep rf text (renderStep rp (typeChars 8 s))

/-- Run up to `fuel` animation frames; once the animator is done no further
frame is scheduled. -/
def runTW (rp rf : String → String) (text : String) : Nat → TWState → TWState
  | 0, s => s
  | n + 1, s =>
    if s.done then s else runTW rp rf text n (animateText rp rf text s)

/-- The animator state right after `optimizedTypeWriter` is invoked:
`words = text.split(" ")`, all counters zero. -/
def twInit (text : String) : TWState :=
  { rest := jsSplit ' ' text, j := 0, currentText := "", lastProcessedLength := 0,
    content := "", doneCalls := 0, done := false }

/-- The observable animator run: `optimizedTypeWriter` after `fuel`
animation frames. -/
def optimizedTypeWriter (rp rf : String → String) (text : String) (fuel : Nat) :
    TWState :=
  runTW rp rf text fuel (twInit text)

/-- Remaining typing work: one tick per character plus one per word end. -/
def twMeasure (s : TWState) : Nat :=
  (s.rest.map (fun w => w.data.length + 1)).sum - s.j

/-- Enough frames to finish animating `text`. -/
def twFuel (text : String) : Nat :=
  ((jsSplit ' ' text).map (fun w => w.data.length + 1)).sum + 1

/-- The character index never passes the end of the current word. -/
def TWJInv (s : TWState) : Prop :=
  ∀ w ws, s.rest = w :: ws → s.j ≤ w.data.length

theorem tick_eq_cons (s : TWState) (w : String) (ws : List String)
    (hr : s.rest = w :: ws) :
    tick s = if s.j + 1 = w.data.length + 1 then
      { s with rest := ws, j := 0,
               currentText := s.currentText ++ charAtStr w s.j ++ " " }
    else { s with j := s.j + 1, currentText := s.currentText ++ charAtStr w s.j } := by
  unfold tick
  rw [hr]

theorem typeChars_eq_nil (k : Nat) (s : TWState) (hr : s.rest = []) :
    typeChars k s = s := by
  cases k with
  | zero => rfl
  | succ k => unfold typeChars; rw [hr]

theorem typeChars_eq_cons (k : Nat) (s : TWState) (w : String) (ws : List String)
    (hr : s.rest = w :: ws) : typeChars (k + 1) s = typeChars k (tick s) := by
  conv_lhs => unfold typeChars
  rw [hr]

theorem tick_ctl (s : TWState) :
    (tick s).done = s.done ∧ (tick s).doneCalls = s.doneCalls ∧
      (tick s).content = s.content ∧
      (tick s).lastProcessedLength = s.lastProcessedLength := by
  cases hr : s.rest with
  | nil => unfold tick; rw [hr]; exact ⟨rfl, rfl, rfl, rfl⟩
  | cons w ws =>
    rw [tick_eq_cons s w ws hr]
    by_cases h : s.j + 1 = w.data.length + 1
    · rw [if_pos h]; exact ⟨rfl, rfl, rfl, rfl⟩
    · rw [if_neg h]; exact ⟨rfl, rfl, rfl, rfl⟩

theorem tick_progress (s : TWState) (hinv : TWJInv s) (w : String) (ws : List String)
    (hr : s.rest = w :: ws) :
    twMeasure (tick s) + 1 = twMeasure s ∧ TWJInv (tick s) := by
  have hj : s.j ≤ w.data.length := hinv w ws hr
  rw [tick_eq_cons s w ws hr]
  by_cases h : s.j + 1 = w.data.length + 1
  · rw [if_pos h]
    constructor
    · simp only [twMeasure, hr, List.map_cons, List.sum_cons]
      omega
    · intro w2 ws2 h2
      simp only at h2
      exact Nat.zero_le _
  · rw [if_neg h]
    constructor
    · simp only [twMeasure, hr, List.map_cons, List.sum_cons]
      omega
    · intro w2 ws2 h2
      show s.j + 1 ≤ w2.data.length
      have h2r : s.rest = w2 :: ws2 := h2
      rw [hr] at h2r
      injection h2r with h2a h2b
      subst h2a
      omega

theorem typeChars_ctl (k : Nat) (s : TWState) :
    (typeChars k s).done = s.done ∧ (typeChars k s).doneCalls = s.doneCalls := by
  induction k generalizing s with
  | zero => exact ⟨rfl, rfl⟩
  | succ k ih =>
    cases hr : s.rest with
    | nil => rw [typeChars_eq_nil _ _ hr]; exact ⟨rfl, rfl⟩
    | cons w ws =>
      rw [typeChars_eq_cons k s w ws hr]
      have h1 := ih (tick s)
      have h2 := tick_ctl s
      exact ⟨h1.1.trans h2.1, h1.2.trans h2.2.1⟩

theorem typeChars_measure (k : Nat) (s : TWState) (hinv : TWJInv s) :
    TWJInv (typeChars k s) ∧ twMeasure (typeChars k s) ≤ twMeasure s := by
  induction k generalizing s with
  | zero => exact ⟨hinv, Nat.le_refl _⟩
  | succ k ih =>
    cases hr : s.rest with
    | nil => rw [typeChars_eq_nil _ _ hr]; exact ⟨hinv, Nat.le_refl _⟩
    | cons w ws =>
      rw [typeChars_eq_cons k s w ws hr]
      have hp := tick_progress s hinv w ws hr
      have h1 := ih (tick s) hp.2
      exact ⟨h1.1, by omega⟩

theorem typeChars_strict (k : Nat) (s : TWState) (hinv : TWJInv s)
    (w : String) (ws : List String) (hr : s.rest = w :: ws) :
    twMeasure (typeChars (k + 1) s) < twMeasure s := by
  rw [typeChars_eq_cons k s w ws hr]
  have hp := tick_progress s hinv w ws hr
  have h1 := typeChars_measure k (tick s) hp.2
  omega

theorem renderStep_ctl (rp : String → String) (s1 : TWState) :
    (renderStep rp s1).rest = s1.rest ∧ (renderStep rp s1).j = s1.j ∧
      (renderStep rp s1).done = s1.done ∧
      (renderStep rp s1).doneCalls = s1.doneCalls := by
  unfold renderStep
  split
  · exact ⟨rfl, rfl, rfl, rfl⟩
  · exact ⟨rfl, rfl, rfl, rfl⟩

theorem twMeasure_renderStep (rp : String → String) (s1 : TWState) :
    twMeasure (renderStep rp s1) = twMeasure s1 := by
  unfold twMeasure
  rw [(renderStep_ctl rp s1).1, (renderStep_ctl rp s1).2.1]

theorem finishStep_eq_nil (rf : String → String) (text : String) (s2 : TWState)
    (h : s2.rest = []) :
    finishStep rf text s2 =
      { s2 with content := rf text, doneCalls := s2.doneCalls + 1, done := true } := by
  unfold finishStep
  rw [h]

theorem finishStep_eq_cons (rf : String → String) (text : String) (s2 : TWState)
    (w : String) (ws : List String) (h : s2.rest = w :: ws) :
    finishStep rf text s2 = s2 := by
  unfold finishStep
  rw [h]

theorem animate_dichotomy (rp rf : String → String) (text : String) (s : TWState) :
    ((animateText rp rf text s).done = true ∧
      (animateText rp rf text s).doneCalls = s.doneCalls + 1 ∧
      (animateText rp rf text s).content = rf text) ∨
    ((animateText rp rf text s).done = s.done ∧
      (animateText rp rf text s).doneCalls = s.doneCalls) := by
  unfold animateText
  have hc1 := typeChars_ctl 8 s
  have hc2 := renderStep_ctl rp (typeChars 8 s)
  cases hr : (renderStep rp (typeChars 8 s)).rest with
  | nil =>
    rw [finishStep_eq_nil rf text _ hr]
    exact Or.inl ⟨rfl, by simp only; omega, rfl⟩
  | cons w ws =>
    rw [finishStep_eq_cons rf text _ w ws hr]
    exact Or.inr ⟨hc2.2.2.1.trans hc1.1, hc2.2.2.2.trans hc1.2⟩

theorem animate_progress (rp rf : String → String) (text : String) (s : TWState)
    (hinv : TWJInv s) (hd : s.done = false) :
    (animateText rp rf text s).done = true ∨
    ((animateText rp rf text s).done = false ∧
      TWJInv (animateText rp rf text s) ∧
      twMeasure (animateText rp rf text s) < twMeasure s) := by
  unfold animateText
  have hm := typeChars_measure 8 s hinv
  have hc1 := typeChars_ctl 8 s
  have hc2 := renderStep_ctl rp (typeChars 8 s)
  cases hr : (renderStep rp (typeChars 8 s)).rest with
  | nil =>
    rw [finishStep_eq_nil rf text _ hr]
    exact Or.inl rfl
  | cons w ws =>
    rw [finishStep_eq_cons rf text _ w ws hr]
    have hr1 : (typeChars 8 s).rest = w :: ws := hc2.1 ▸ hr
    have hsne : ∃ w0 ws0, s.rest = w0 :: ws0 := by
      cases hs : s.rest with
      | nil =>
        rw [typeChars_eq_nil 8 s hs, hs] at hr1
        cases hr1
      | cons a b => exact ⟨a, b, rfl⟩
    rcases hsne with ⟨w0, ws0, hs⟩
    have hstrict : twMeasure (typeChars 8 s) < twMeasure s :=
      typeChars_strict 7 s hinv w0 ws0 hs
    refine Or.inr ⟨hc2.2.2.1.trans (hc1.1.trans hd), ?_, ?_⟩
    · intro a b hab
      rw [hc2.1] at hab
      have := hm.1 a b hab
      rw [hc2.2.1]
      exact this
    · rw [twMeasure_renderStep]
      exact hstrict

theorem runTW_of_done (rp rf : String → String) (text : String) (n : Nat)
    (s : TWState) (h : s.done = true) : runTW rp rf text n s = s := by
  cases n with
  | zero => rfl
  | succ n => unfold runTW; rw [if_pos h]

/-- The callback bookkeeping invariant: before completion the callback has
never fired; after completion it has fired exactly once, after the final
full render. -/
def doneOk (rf : String → String) (text : String) (s : TWState) : Prop :=
  (s.done = false ∧ s.doneCalls = 0) ∨
    (s.done = true ∧ s.doneCalls = 1 ∧ s.content = rf text)

theorem runTW_doneOk (rp rf : String → String) (text : String) (n : Nat)
    (s : TWState) (h : doneOk rf text s) : doneOk rf text (runTW rp rf text n s) := by
  induction n generalizing s with
  | zero => exact h
  | succ n ih =>
    unfold runTW
    rcases h with ⟨hd, hc⟩ | ⟨hd, hc, hco⟩
    · rw [if_neg (by rw [hd]; exact Bool.false_ne_true)]
      refine ih _ ?_
      rcases animate_dichotomy rp rf text s with ⟨h1, h2, h3⟩ | ⟨h1, h2⟩
      · exact Or.inr ⟨h1, by omega, h3⟩
      · exact Or.inl ⟨h1.trans hd, h2.trans hc⟩
    · rw [if_pos hd]
      exact Or.inr ⟨hd, hc, hco⟩

theorem runTW_completes (rp rf : String → String) (text : String) (n : Nat)
    (s : TWState) (hinv : TWJInv s) (hd : s.done = false) (hm : twMeasure s < n) :
    (runTW rp rf text n s).done = true := by
  induction n generalizing s with
  | zero => omega
  | succ n ih =>
    unfold runTW
    rw [if_neg (by rw [hd]; exact Bool.false_ne_true)]
    rcases animate_progress rp rf text s hinv hd with h | ⟨h1, h2, h3⟩
    · rw [runTW_of_done rp rf text n _ h]
      exact h
    · exact ih _ h2 h1 (by omega)

/-- Claim C3: for every input text and every pair of render functions, the
reveal animator's callback fires at most once over any number of frames,
the surface content equals `renderFull(text)` whenever the callback has
fired (the final full render happens in the same frame, before the
callback), and with enough frames the callback has fired exactly once with
the surface holding `renderFull(text)`. -/
theorem C3_optimizedTypeWriter_completion (rp rf : String → String) (text : String) :
    (∀ fuel, (optimizedTypeWriter rp rf text fuel).doneCalls ≤ 1) ∧
    (∀ fuel, (optimizedTypeWriter rp rf text fuel).doneCalls = 1 →
      (optimizedTypeWriter rp rf text fuel).content = rf text) ∧
    (∀ fuel, twFuel text ≤ fuel →
      (optimizedTypeWriter rp rf text fuel).doneCalls = 1 ∧
      (optimizedTypeWriter rp rf text fuel).content = rf text) := by
  have hinit : doneOk rf text (twInit text) := Or.inl ⟨rfl, rfl⟩
  refine ⟨?_, ?_, ?_⟩
  · intro fuel
    rcases runTW_doneOk rp rf text fuel (twInit text) hinit with ⟨_, h⟩ | ⟨_, h, _⟩ <;>
      unfold optimizedTypeWriter <;> omega
  · intro fuel h1
    rcases runTW_doneOk rp rf text fuel (twInit text) hinit with ⟨_, h⟩ | ⟨_, _, h⟩
    · unfold optimizedTypeWriter at h1 ⊢
      omega
    · exact h
  · intro fuel hf
    have hdone : (optimizedTypeWriter rp rf text fuel).done = true := by
      refine runTW_completes rp rf text fuel (twInit text) ?_ rfl ?_
      · intro w ws _
        exact Nat.zero_le _
      · unfold twMeasure twInit twFuel at *
        simp only [Nat.sub_zero]
        omega
    rcases runTW_doneOk rp rf text fuel (twInit text) hinit with ⟨h, _⟩ | ⟨_, h1, h2⟩
    · unfold optimizedTypeWriter at hdone
      rw [hdone] at h
      cases h
    · exact ⟨h1, h2⟩

/-- Claim C3, witness: the completion facts applied to a concrete text and
concrete render functions, with enough frames. -/
theorem C3_witness :
    (optimizedTypeWriter (fun u => "P:" ++ u) (fun u => "F:" ++ u)
        "hi there" 10).doneCalls = 1 ∧
      (optimizedTypeWriter (fun u => "P:" ++ u) (fun u => "F:" ++ u)
        "hi there" 10).content = (fun u => "F:" ++ u) "hi there" :=
  (C3_optimizedTypeWriter_completion (fun u => "P:" ++ u) (fun u => "F:" ++ u)
    "hi there").2.2 10 (by decide)

/-! ## Partial rendering failure semantics (`src/unnamed/part_001`)

The refactored markdown service's `processPartialMarkdown` wraps the whole
parse in try/catch: `marked.parse` (oracle `parse`, fallible) feeds
`DOMPurify.sanitize` (oracle `sanitize`); `_addSemanticClasses` runs under
its own try with the sanitized html as fallback (oracle `addSem`,
fallible); a parse exception falls back to HTML-escaping the raw buffer.
This variant caches without an eviction check, so it acts on its partial
cache map directly. -/

/-- Replace every occurrence of the character `c` by `rep` (JS
`String.prototype.replace` with a global one-character pattern). -/
def replaceAllChar (c : Char) (rep : String) (s : String) : String :=
  String.mk (s.data.foldr (fun ch acc => (if ch = c then rep.data else [ch]) ++ acc) [])

/-- The escape fallback of `processPartialMarkdown` (`src/unnamed/part_001`
lines 299-302): `&`, `<`, `>` replaced by their entities, in that order. -/
def escapeHtml (s : String) : String :=
  replaceAllChar '>' "&gt;" (replaceAllChar '<' "&lt;" (replaceAllChar '&' "&amp;" s))

/-- Embedding of `processPartialMarkdown(partialContent, fullContent)` from
`src/unnamed/part_001` lines 264-306: cached value on a hit; otherwise
parse, sanitize and post-process (falling back to the sanitized html when
the post-processing throws) and cache the result; when the parse throws,
return and cache the HTML-escaped raw buffer instead of propagating. -/
def processPartialMarkdownR (parse : String → Except String String)
    (sanitize : String → String) (addSem : String → Except String String)
    (cache : JsMap) (content : String) : String × JsMap :=
  match cache.getVal ("partial_" ++ content) with
  | some v => (v, cache)
  | none =>
    match parse content with
    | Except.ok dirtyHtml =>
      let safeHtml := sanitize dirtyHtml
      let processedHtml :=
        match addSem safeHtml with
        | Except.ok processed => processed
        | Except.error _ => safeHtml
      (processedHtml, cache.setKey ("partial_" ++ content) processedHtml)
    | Except.error _ =>
      let escaped := escapeHtml content
      (escaped, cache.setKey ("partial_" ++ content) escaped)

/-- Claim C6: the partial renderer never throws — it is total over every
outcome of the fallible parse and post-processing oracles — and whenever
the parse of an uncached partial text fails it returns (and caches) the raw
buffer HTML-escaped, with `&`, `<`, `>` replaced by entities. -/
theorem C6_processPartialMarkdownR_fallback :
    (∀ parse sanitize addSem cache content e,
      JsMap.getVal cache ("partial_" ++ content) = none →
      parse content = Except.error e →
      processPartialMarkdownR parse sanitize addSem cache content =
        (escapeHtml content,
          cache.setKey ("partial_" ++ content) (escapeHtml content))) ∧
    escapeHtml "<a & b>" = "&lt;a &amp; b&gt;" := by
  constructor
  · intro parse sanitize addSem cache content e hget hparse
    unfold processPartialMarkdownR
    rw [hget, hparse]
  · decide

/-- Claim C6, witness: the fallback applied at a concrete uncached input
with a concrete failing parse. -/
theorem C6_witness :
    processPartialMarkdownR (fun _ => Except.error "parse failed")
      (fun s => s) (fun s => Except.ok s) JsMap.empty "x<y" =
      ("x&lt;y", JsMap.empty.setKey "partial_x<y" "x&lt;y") := by
  have h := C6_processPartialMarkdownR_fallback.1 (fun _ => Except.error "parse failed")
    (fun s => s) (fun s => Except.ok s) JsMap.empty "x<y" "parse failed"
    (by decide) rfl
  rw [h]
  decide

/-! ## The stream coordinator (`static/js/chat.js` and
`static/js/components/message-handler.js`)

`sendUserInput`'s chunked read loop (chat.js lines 65-91) accumulates each
decoded chunk into `fullResponse`, hands it to `appendGenieStreamChunk`
(message-handler, lines 287-327: grow the `data-raw` buffer, render it with
`processPartialMarkdown`, schedule `wrapCodeBlocks`), and after the stream
closes renders the complete buffer with `processFullMarkdown` and runs
`wrapCodeBlocks` once more.  The trace of renderer-visible operations is
recorded so the completion sequence can be inspected. -/

/-- One renderer-visible operation of the stream coordinator. -/
inductive StreamOp where
  | renderPartialOp (raw : String)
  | renderFullOp (buffer : String)
  | wrapOp
  | clearPartialOp
deriving Repr, DecidableEq

/-- The per-message coordinator state: the markdown service, the message's
`data-raw` buffer, the surface markup, and the operation trace. -/
structure CoordState where
  md : MDState
  raw : String
  content : String
  ops : List StreamOp
deriving Repr, DecidableEq

/-- Embedding of `appendGenieStreamChunk(elements, genieMessageElements,
chunk)` from `static/js/components/message-handler.js` lines 287-327. -/
def appendGenieStreamChunk (body : String → String) (st : CoordState)
    (chunk : String) : CoordState :=
  let newRaw := st.raw ++ chunk
  let r := processPartialMarkdown body st.md newRaw
  { md := r.2, raw := newRaw, content := r.1,
    ops := st.ops ++ [StreamOp.renderPartialOp newRaw, StreamOp.wrapOp] }

/-- The stream-end block of `sendUserInput` (`static/js/chat.js` lines
84-91): one full render of the accumulated buffer and one more enhancement
pass.  No cache-clearing call appears in this block. -/
def streamEndFinalize (body : String → String) (st : CoordState) : CoordState :=
  let r := processFullMarkdown body st.md st.raw
  { md := r.2, raw := st.raw, content := r.1,
    ops := st.ops ++ [StreamOp.renderFullOp st.raw, StreamOp.wrapOp] }

/-- The read loop plus stream-end handling of `sendUserInput`
(`static/js/chat.js` lines 65-91) for one streamed assistant message:
`genieMessageElements` exists exactly when at least one chunk arrived, so
the finalize block runs unless the chunk list is empty. -/
def streamGenieResponse (body : String → String) (md0 : MDState)
    (chunks : List String) : CoordState :=
  let st := chunks.foldl (appendGenieStreamChunk body) ⟨md0, "", "", []⟩
  if chunks.isEmpty then st else streamEndFinalize body st

/-- Claim C7: evaluated at a streamed message of one 39-character chunk,
the coordinator's stream-end handling performs the final full render and
the extra enhancement pass, but never calls `clearPartialCache()`: the
partial-cache entry written during streaming is still present after the
message completes, contradicting the claim that the partial cache is empty
then. -/
theorem C7_stream_end_leaves_partial_cache :
    (streamGenieResponse (fun s => s) mdInit
        ["SELECT column_a FROM weather_stations;"]).md.partCache.size = 1 ∧
    StreamOp.clearPartialOp ∉ (streamGenieResponse (fun s => s) mdInit
        ["SELECT column_a FROM weather_stations;"]).ops ∧
    (streamGenieResponse (fun s => s) mdInit
        ["SELECT column_a FROM weather_stations;"]).ops =
      [StreamOp.renderPartialOp "SELECT column_a FROM weather_stations;",
       StreamOp.wrapOp,
       StreamOp.renderFullOp "SELECT column_a FROM weather_stations;",
       StreamOp.wrapOp] := by
  refine ⟨by decide, by decide, by decide⟩

/-! ## The diagram renderer (`static/js/components/mermaid-helper.js`)

`renderMermaid(container, code, onSuccess, onError)` loads the capability
(modelled as already loaded), validates with `window.mermaid.parse` (oracle
`parse`, throws on invalid source), and only then clears the container,
appends the diagram div and renders it with `mermaid.init` (oracle
`render`, yielding the rendered node or a rejection).  The returned
`Except` records which callback fired with which message. -/

/-- Embedding of `renderMermaid` from
`static/js/components/mermaid-helper.js` lines 14-44, returning the new
container children and the fired callback. -/
def renderMermaid (parse : String → Except String Unit)
    (render : String → Except String DNode)
    (container : List DNode) (code : String) : List DNode × Except String Unit :=
  match parse code with
  | Except.error e => (container, Except.error e)
  | Except.ok _ =>
    match render code with
    | Except.ok node => ([node], Except.ok ())
    | Except.error e => ([DNode.elem "div" "mermaid" "" [DNode.text code]],
        Except.error e)

/-- Observable outcome of enhancing one mermaid block. -/
structure MermaidOutcome where
  container : List DNode
  preDisplay : String
  successCalls : Nat
  errorCalls : Nat

/-- The mermaid branch of `wrapCodeBlocks`
(`static/js/components/code-blocks.js` lines 161-190): the raw `pre` is
hidden up front, the empty diagram container is attached, and the error
callback restores `pre.style.display = "block"` so the raw block stays
visible. -/
def enhanceMermaidBlock (parse : String → Except String Unit)
    (render : String → Except String DNode) (code : String) : MermaidOutcome :=
  let r := renderMermaid parse render [] code
  match r.2 with
  | Except.ok _ =>
    { container := r.1, preDisplay := "none", successCalls := 1, errorCalls := 0 }
  | Except.error _ =>
    { container := r.1, preDisplay := "block", successCalls := 0, errorCalls := 1 }

/-- Claim C8: the diagram renderer validates before mutating — on a parse
failure the container keeps its prior content untouched and only the error
callback fires (and in the enhancer integration the raw code block is made
visible again); when validation and rendering succeed, the container's
content is replaced by the rendered node and only the success callback
fires (with the raw block left hidden). -/
theorem C8_renderMermaid_validation :
    (∀ parse render (container : List DNode) code e,
      parse code = Except.error e →
      renderMermaid parse render container code = (container, Except.error e)) ∧
    (∀ parse render (container : List DNode) code node,
      parse code = Except.ok () → render code = Except.ok node →
      renderMermaid parse render container code = ([node], Except.ok ())) ∧
    (∀ parse render code e, parse code = Except.error e →
      (enhanceMermaidBlock parse render code).preDisplay = "block" ∧
      (enhanceMermaidBlock parse render code).errorCalls = 1 ∧
      (enhanceMermaidBlock parse render code).successCalls = 0) ∧
    (∀ parse render code node,
      parse code = Except.ok () → render code = Except.ok node →
      (enhanceMermaidBlock parse render code).container = [node] ∧
      (enhanceMermaidBlock parse render code).preDisplay = "none" ∧
      (enhanceMermaidBlock parse render code).successCalls = 1 ∧
      (enhanceMermaidBlock parse render code).errorCalls = 0) := by
  refine ⟨?_, ?_, ?_, ?_⟩
  · intro parse render container code e hp
    unfold renderMermaid
    rw [hp]
  · intro parse render container code node hp hr
    unfold renderMermaid
    rw [hp, hr]
  · intro parse render code e hp
    unfold enhanceMermaidBlock
    rw [(by unfold renderMermaid; rw [hp] :
      renderMermaid parse render [] code = ([], Except.error e))]
    exact ⟨rfl, rfl, rfl⟩
  · intro parse render code node hp hr
    unfold enhanceMermaidBlock
    rw [(by unfold renderMermaid; rw [hp, hr] :
      renderMermaid parse render [] code = ([node], Except.ok ()))]
    exact ⟨rfl, rfl, rfl, rfl⟩

/-- A concrete mermaid parse oracle accepting exactly the complete demo
diagram of the specification's Scenario B. -/
def demoMermaidParse (s : String) : Except String Unit :=
  if s = "graph TD\nA-->B" then Except.ok () else Except.error "Invalid diagram syntax"

/-- A concrete mermaid render oracle producing one svg node. -/
def demoMermaidRender (_s : String) : Except String DNode :=
  Except.ok (DNode.elem "svg" "" "" [])

/-- Claim C8, witness: Scenario B — the complete source renders (success
callback, raw block hidden), the truncated source fails validation (error
callback, raw block visible). -/
theorem C8_witness :
    (enhanceMermaidBlock demoMermaidParse demoMermaidRender
        "graph TD\nA-->B").successCalls = 1 ∧
      (enhanceMermaidBlock demoMermaidParse demoMermaidRender
        "graph TD\nA--").preDisplay = "block" :=
  ⟨(C8_renderMermaid_validation.2.2.2 demoMermaidParse demoMermaidRender
      "graph TD\nA-->B" (DNode.elem "svg" "" "" []) (by rfl) rfl).2.2.1,
   (C8_renderMermaid_validation.2.2.1 demoMermaidParse demoMermaidRender
      "graph TD\nA--" "Invalid diagram syntax" (by rfl)).1⟩

/-! ## Concurrent sends (`static/js/chat.js` lines 42-97)

`sendUserInput` keeps no record of an in-flight stream: after the
`if (!prompt) return` guard it unconditionally opens the POST and starts
reading the response.  Its suspension points (`await fetch`,
`await reader.read()`) let another `sendUserInput` call run to the same
guard and open a second read before the first finishes.  The interleaving
is modelled by a counter of in-flight stream reads driven by the events
the function produces: a send (which opens a read exactly when the prompt
is nonempty, whatever else is in flight) and the completion of a read. -/

/-- An event of the chat session: a user send, or a stream read finishing. -/
inductive ChatEv where
  | send (prompt : String)
  | streamDone
deriving Repr, DecidableEq

/-- The number of response-stream reads currently in flight. -/
structure ChatConc where
  active : Nat
deriving Repr, DecidableEq

/-- One event step: `sendUserInput` opens a stream read iff the prompt is
nonempty — it consults no active-stream state, because the source has
none. -/
def chatStep (st : ChatConc) : ChatEv → ChatConc
  | .send prompt => if prompt == "" then st else ⟨st.active + 1⟩
  | .streamDone => ⟨st.active - 1⟩

/-- Run a sequence of chat events from the idle session. -/
def chatRun (evs : List ChatEv) : ChatConc :=
  evs.foldl chatStep ⟨0⟩

/-- Claim C9, counterexample: two nonempty sends with no completion in
between leave two stream reads in flight — the second send is neither
queued nor rejected, so "at most one response stream is active" fails. -/
theorem C9_counterexample :
    (chatRun [ChatEv.send "show tables", ChatEv.send "list users"]).active = 2 ∧
      ¬ (chatRun [ChatEv.send "show tables", ChatEv.send "list users"]).active ≤ 1 := by
  refine ⟨by decide, by decide⟩

/-- Claim C9 (amended): `sendUserInput` applies no serialization policy —
a send with a nonempty prompt always opens one more stream read regardless
of how many are already active (so overlapping streams into the same
session are possible), and a send with an empty prompt opens nothing. -/
theorem C9_no_serialization :
    (∀ (st : ChatConc) (prompt : String), prompt ≠ "" →
      (chatStep st (ChatEv.send prompt)).active = st.active + 1) ∧
    (∀ st : ChatConc, (chatStep st (ChatEv.send "")).active = st.active) := by
  constructor
  · intro st prompt h
    show (if (prompt == "") = true then st else ⟨st.active + 1⟩).active = st.active + 1
    rw [if_neg (by simpa using h)]
  · intro st
    rfl

/-- Claim C9, witness: a nonempty send while one stream is already active
opens a second one. -/
theorem C9_witness : (chatStep ⟨1⟩ (ChatEv.send "show tables")).active = 2 :=
  C9_no_serialization.1 ⟨1⟩ "show tables" (by decide)

/-! ## Empty-input send (`static/js/chat.js` lines 42-49)

The whole `sendUserInput` is embedded as a state transformer over the chat
session: the text input value, the transcript, the markdown service
singleton and the list of POSTed prompts.  Reading
`sessionStorage.getItem("conversation_id")` mutates nothing; the
`if (!prompt) return` guard fires on the empty string (the input value is
always a string). -/

/-- The chat session state visible to `sendUserInput`. -/
structure ChatState where
  input : String
  transcript : List (String × String)
  md : MDState
  requests : List String
deriving Repr, DecidableEq

/-- Embedding of `sendUserInput(elements)` from `static/js/chat.js` lines
42-97, with the response stream's chunks supplied as `chunks`: on a
nonempty prompt it appends the user bubble, clears the input, POSTs the
prompt, runs the chunked read loop with its stream-end finalize
(`streamGenieResponse`), and appends the genie message when one was
created. -/
def sendUserInput (body : String → String) (st : ChatState)
    (chunks : List String) : ChatState :=
  if st.input == "" then st
  else
    let prompt := st.input
    let st1 : ChatState :=
      { st with transcript := st.transcript ++ [("user", prompt)], input := "",
                requests := st.requests ++ [prompt] }
    let coord := streamGenieResponse body st1.md chunks
    if chunks.isEmpty then { st1 with md := coord.md }
    else { st1 with md := coord.md,
                    transcript := st1.transcript ++ [("genie", coord.content)] }

/-- Claim C10: with an empty text input, `sendUserInput` is a complete
no-op — the state it returns is the state it was given: no message is
added, no request is opened, and the input field and both markup caches
are untouched. -/
theorem C10_empty_input_noop (body : String → String) (st : ChatState)
    (chunks : List String) (h : st.input = "") :
    sendUserInput body st chunks = st := by
  unfold sendUserInput
  rw [if_pos (by rw [h]; rfl)]

/-- Claim C10, witness: the no-op applied at a concrete session state. -/
theorem C10_witness :
    sendUserInput (fun s => s)
      ⟨"", [("user", "hello")], mdInit, ["hello"]⟩ ["chunk"] =
      ⟨"", [("user", "hello")], mdInit, ["hello"]⟩ :=
  C10_empty_input_noop (fun s => s)
    ⟨"", [("user", "hello")], mdInit, ["hello"]⟩ ["chunk"] rfl

end DbGenie
